import Mathlib

/-!
Shallow embedding of the cdpnetool interception runtime, covering the parts
of the source that the verified claims are about:

* `internal/cdp/pause.go`  — the pause/approval coordinator (`applyPause`,
  `sendPendingItem`, `applyApprovalResult`, `hasEffectiveMutations`, …);
* `internal/cdp/handler.go` — the per-event handler (`handle`,
  `dispatchPaused`, `degradeAndContinue`);
* the action executor (`ExecuteRequest`, `ExecuteRequestActions`,
  `ExecuteResponse`, `ExecuteResponseActions`, `RequestMutation.Merge`,
  `ResponseMutation.Merge`, `BuildRequestArgs`, `BuildResponseArgs`,
  `buildFinalResponseHeaders`, …).

Go `map[string]string` values are modelled as association lists
(`List (String × String)`) with Go's update semantics: writing to an
existing key replaces its value, writing a fresh key adds an entry.  Go
maps are unordered, so wherever a claim speaks about equality of maps the
statement uses lookup equality.  Go channels are modelled by a capacity
plus a buffer; with no ready receiver, a send is enabled exactly when the
buffer has free capacity, and a blocking send on a full channel is a stuck
step (`Option.none`).
-/

namespace Cdpnetool

/-! ## Go map model (`map[string]string` as an association list) -/

/-- Go `map[string]string`, as an insertion-ordered association list. -/
abbrev SMap := List (String × String)

/-- Lookup (`v, ok := m[k]`): the first entry with exactly this key. -/
def mapGet (m : SMap) (k : String) : Option String :=
  match m with
  | [] => none
  | (k', v) :: t => if k' = k then some v else mapGet t k

/-- Go map write `m[k] = v`: replace the value of an existing entry with
this exact key, otherwise add a new entry. -/
def mapSet (m : SMap) (k v : String) : SMap :=
  match m with
  | [] => [(k, v)]
  | (k', v') :: t => if k' = k then (k, v) :: t else (k', v') :: mapSet t k v

/-- `for k, v := range src { dst[k] = v }` — the merge loop Go uses for
`set-*` maps. -/
def mergeMapGo (dst src : SMap) : SMap :=
  src.foldl (fun m e => mapSet m e.1 e.2) dst

/-- ASCII case folding of one character code (`'A'..'Z'` to lower case);
models the case folding `strings.EqualFold` performs on the ASCII header
names appearing in the source and in the claims. -/
def foldCharCode (c : Char) : Nat :=
  if 65 ≤ c.toNat ∧ c.toNat ≤ 90 then c.toNat + 32 else c.toNat

/-- `strings.EqualFold` on the ASCII strings the claims are about. -/
def eqFold (a b : String) : Bool :=
  a.data.map foldCharCode == b.data.map foldCharCode

/-- The source's case-insensitive header removal: `delete(m, name)`
followed by deleting every key `k` with `strings.EqualFold(k, name)`.
The net effect removes every case-insensitive match. -/
def mapDelFold (m : SMap) (name : String) : SMap :=
  m.filter (fun e => !(eqFold e.1 name))

/-- Well-formedness every Go map enjoys: no duplicate keys. -/
def WFMap (m : SMap) : Prop := (m.map Prod.fst).Nodup

instance (m : SMap) : Decidable (WFMap m) := by
  unfold WFMap; infer_instance

/-! ## Go standard base64 (`encoding/base64`, `StdEncoding.DecodeString`) -/

/-- Value of one character in the standard base64 alphabet. -/
def b64Val (c : Char) : Option Nat :=
  let n := c.toNat
  if 65 ≤ n ∧ n ≤ 90 then some (n - 65)
  else if 97 ≤ n ∧ n ≤ 122 then some (n - 71)
  else if 48 ≤ n ∧ n ≤ 57 then some (n + 4)
  else if n = 43 then some 62
  else if n = 47 then some 63
  else none

/-- Decode standard base64 in four-character quanta with strict `=`
padding (padding only in the final quantum); any character outside the
alphabet, or a truncated quantum, is an error, as in Go's
`base64.StdEncoding.DecodeString`. -/
def b64Quanta : List Char → Option (List Nat)
  | [] => some []
  | c1 :: c2 :: c3 :: c4 :: rest => do
    let v1 ← b64Val c1
    let v2 ← b64Val c2
    if c3 = '=' then
      if c4 = '=' ∧ rest = [] then
        some [v1 * 4 + v2 / 16]
      else none
    else if c4 = '=' then
      if rest = [] then do
        let v3 ← b64Val c3
        some [v1 * 4 + v2 / 16, (v2 % 16) * 16 + v3 / 4]
      else none
    else do
      let v3 ← b64Val c3
      let v4 ← b64Val c4
      let rest' ← b64Quanta rest
      some ([v1 * 4 + v2 / 16, (v2 % 16) * 16 + v3 / 4, (v3 % 4) * 64 + v4] ++ rest')
  | _ => none

/-- `base64.StdEncoding.DecodeString` followed by Go's `string(bytes)`
conversion; decoded bytes are represented as the string of their code
points, and `\r`/`\n` are skipped as in Go. `none` is a decode error. -/
def goBase64Decode (s : String) : Option String :=
  (b64Quanta (s.data.filter (fun c => c ≠ '\r' ∧ c ≠ '\n'))).map
    (fun bs => String.mk (bs.map Char.ofNat))

/-! ## Go channel model

A buffered channel with no ready receiver: a send is enabled exactly when
the buffer has free capacity.  `chanSend` is the blocking send `ch <- x`:
on a full buffer the sending goroutine is stuck, which the model renders
as `none`. -/

structure Chan (α : Type) where
  cap : Nat
  buf : List α
  deriving DecidableEq, Repr

/-- Blocking send `ch <- x` (no ready receiver): `none` means the sender
blocks. -/
def chanSend {α : Type} (ch : Chan α) (x : α) : Option (Chan α) :=
  if ch.buf.length < ch.cap then some { ch with buf := ch.buf ++ [x] } else none

/-- Non-blocking send (`select { case ch <- x: default: }`): never stuck,
returns the channel (dropping `x` when full) and whether `x` was accepted.
This is the emission discipline §4.H/S5 of the specification describes;
it is stated here only to be compared with what the code does. -/
def chanTrySend {α : Type} (ch : Chan α) (x : α) : Chan α × Bool :=
  if ch.buf.length < ch.cap then ({ ch with buf := ch.buf ++ [x] }, true)
  else (ch, false)

end Cdpnetool

namespace Cdpnetool.Cdp

open Cdpnetool

/-! ## Data shapes of `internal/cdp`

`rulespec.Rewrite`, `rulespec.Pause` and `model.Event` are declared in
packages whose files are not part of the sources; their field sets are
taken from the uses in `pause.go` / `handler.go` (fields `URL`, `Method`,
`Headers`, `Query`, `Cookies`, `Body`; `TimeoutMS`, `DefaultAction`
with `Type`/`Status`/`Reason`; `Type`, `Rule`). -/

/-- `rulespec.Rewrite` (field set from its uses in `pause.go`). -/
structure Rewrite where
  url : Option String := none
  method : Option String := none
  headers : SMap := []
  query : SMap := []
  cookies : SMap := []
  body : Option String := none
  deriving DecidableEq, Repr

/-- The `rulespec.PauseDefaultAction*` constants switched on in
`applyPauseDefaultAction`; `other` stands for any further value, which the
`switch` sends to its `default` branch. -/
inductive PauseDefaultActionType where
  | fulfill
  | fail
  | continueMutated
  | other
  deriving DecidableEq, Repr

structure PauseDefaultAction where
  type : PauseDefaultActionType
  status : Int := 0
  reason : String := ""
  deriving DecidableEq, Repr

/-- `rulespec.Pause` (fields used by `pause.go`). -/
structure Pause where
  timeoutMS : Int := 0
  defaultAction : PauseDefaultAction
  deriving DecidableEq, Repr

/-- `model.PendingItem` (fields set by `sendPendingItem`). -/
structure PendingItem where
  id : String
  stage : String := "request"
  url : String := ""
  method : String := ""
  deriving DecidableEq, Repr

/-- `model.Event` (fields used by `handler.go`: `Type`, `Rule`). -/
structure Event where
  type : String
  rule : Option String := none
  deriving DecidableEq, Repr

/-- The terminal CDP call a paused event is resolved with.  `applyContinue`,
`applyRewrite`, `applyRespond` and `applyFail` each issue exactly one of
these calls; the model records which one, with its payload. -/
inductive Outcome where
  | continueReq (stage : String)
  | rewrite (r : Rewrite) (stage : String)
  | respond (status : Int) (stage : String)
  | failReq (reason : String)
  deriving DecidableEq, Repr

/-! ## `pause.go` -/

/-- `hasEffectiveMutations` (pause.go:111-122). -/
def hasEffectiveMutations (m : Rewrite) : Bool :=
  if m.url.isSome || m.method.isSome then true
  else if m.headers.length > 0 || m.query.length > 0 || m.cookies.length > 0 then true
  else if m.body.isSome then true
  else false

/-- `applyPauseDefaultAction` (pause.go:97-108). -/
def applyPauseDefaultAction (p : Pause) (stage : String) : Outcome :=
  match p.defaultAction.type with
  | .fulfill => .respond p.defaultAction.status stage
  | .fail => .failReq p.defaultAction.reason
  | .continueMutated => .continueReq stage
  | .other => .continueReq stage

/-- `applyApprovalResult` (pause.go:84-94): `mut = none` is the timeout
case (`waitForApproval` returned `nil`). -/
def applyApprovalResult (m : Option Rewrite) (p : Pause) (stage : String) : Outcome :=
  match m with
  | some r => if hasEffectiveMutations r then .rewrite r stage else .continueReq stage
  | none => applyPauseDefaultAction p stage

/-- `registerApproval` (pause.go:28-34): the approvals map is modelled by
its key set (the channels themselves are irrelevant to the claims). -/
def registerApproval (approvals : List String) (id : String) : List String :=
  id :: approvals

/-- `unregisterApproval` (pause.go:37-41). -/
def unregisterApproval (approvals : List String) (id : String) : List String :=
  approvals.filter (fun x => x ≠ id)

/-- `sendPendingItem` (pause.go:56-75).  `pending = none` models
`m.pending == nil`.  Returns the new queue state and the boolean result;
`false` means the queue was full, in which case the caller has already run
`handlePauseOverflow` (the declared default action, taken immediately). -/
def sendPendingItem (pending : Option (Chan PendingItem)) (item : PendingItem) :
    Option (Chan PendingItem) × Bool :=
  match pending with
  | none => (none, true)
  | some ch =>
    match chanSend ch item with
    | some ch' => (some ch', true)
    | none => (some ch, false)

/-- `applyPause` (pause.go:14-25), as a function of the approval-map key
set, the pending queue, and the result the later `waitForApproval` would
return (`some r` = a deposit, `none` = timeout).  Returns the approvals
key set after the flow exits, the pending queue, and the terminal outcome.
Mirrors the source exactly: on the queue-full path `sendPendingItem`
returns `false`, `handlePauseOverflow` runs `applyPauseDefaultAction`, and
`applyPause` returns at once — without `unregisterApproval`. -/
def applyPause (approvals : List String) (pending : Option (Chan PendingItem))
    (item : PendingItem) (p : Pause) (stage : String)
    (approvalInput : Option Rewrite) :
    List String × Option (Chan PendingItem) × Outcome :=
  let as1 := registerApproval approvals item.id
  match sendPendingItem pending item with
  | (pend', false) => (as1, pend', applyPauseDefaultAction p stage)
  | (pend', true) =>
    let out := applyApprovalResult approvalInput p stage
    (unregisterApproval as1 item.id, pend', out)

/-! ## `handler.go` -/

/-- The fields of `rules.Result.Action` read by `handle`
(`DropRate`, `DelayMS`, `Pause`, `Fail`, `Respond`, `Rewrite`).
`rand.Float64()` values and `DropRate` are modelled as rationals. -/
structure ActionCfg where
  dropRate : ℚ := 0
  delayMS : Int := 0
  pause : Option Pause := none
  fail : Option String := none
  respond : Option Int := none
  rewrite : Option Rewrite := none
  deriving DecidableEq

/-- `rules.Result` as used by `handle` (`Action`, `RuleID`). -/
structure DecideResult where
  action : Option ActionCfg := none
  ruleID : Option String := none
  deriving DecidableEq

/-- What `handle` does with the paused event after its emissions. -/
inductive HandleOutcome where
  | continueReq (stage : String)
  | degradedContinue (stage : String)
  | paused (p : Pause) (stage : String)
  | failed (reason : String)
  | fulfilled (status : Int) (stage : String)
  | rewritten (r : Rewrite) (stage : String)
  deriving DecidableEq

/-- `to := m.processTimeoutMS; if to <= 0 { to = 3000 }` (handler.go:15-18). -/
def effTimeout (processTimeoutMS : Int) : Int :=
  if processTimeoutMS ≤ 0 then 3000 else processTimeoutMS

/-- The part of `handle` (handler.go:23-83) after the `intercepted`
emission, over the inputs that decide its control flow: the decision
result, the `rand.Float64()` draw, and the elapsed time measured after
the delay step.  Every `m.events <- …` in the source is a plain blocking
send; the model therefore threads the channel through `chanSend`, and a
`none` result means the handler goroutine is blocked on a full event
channel. -/
def handleCore (processTimeoutMS : Int) (ch : Chan Event) (stage : String)
    (res : Option DecideResult) (draw : ℚ) (elapsedAfterDelayMS : ℚ) :
    Option (HandleOutcome × Chan Event) :=
  match res with
  | none => some (.continueReq stage, ch)
  | some r =>
    match r.action with
    | none => some (.continueReq stage, ch)
    | some a =>
      if a.dropRate > 0 ∧ draw < a.dropRate then do
        let ch ← chanSend ch { type := "degraded" }
        some (.degradedContinue stage, ch)
      else if elapsedAfterDelayMS > (effTimeout processTimeoutMS : ℚ) then do
        let ch ← chanSend ch { type := "degraded" }
        some (.degradedContinue stage, ch)
      else
        match a.pause with
        | some p => some (.paused p stage, ch)
        | none =>
          match a.fail with
          | some reason => do
            let ch ← chanSend ch { type := "failed", rule := r.ruleID }
            some (.failed reason, ch)
          | none =>
            match a.respond with
            | some st => do
              let ch ← chanSend ch { type := "fulfilled", rule := r.ruleID }
              some (.fulfilled st stage, ch)
            | none =>
              match a.rewrite with
              | some rw => do
                let ch ← chanSend ch { type := "mutated", rule := r.ruleID }
                some (.rewritten rw stage, ch)
              | none => some (.continueReq stage, ch)

/-- `handle` (handler.go:14-83): the `intercepted` emission — a blocking
send — followed by the rest of the handler. -/
def handle (processTimeoutMS : Int) (ch : Chan Event) (stage : String)
    (res : Option DecideResult) (draw : ℚ) (elapsedAfterDelayMS : ℚ) :
    Option (HandleOutcome × Chan Event) :=
  (chanSend ch { type := "intercepted" }).bind fun ch1 =>
    handleCore processTimeoutMS ch1 stage res draw elapsedAfterDelayMS

/-- `fetch.ContinueRequestArgs` as built by the manager and executor. -/
structure ContinueRequestArgs where
  requestID : String
  url : Option String := none
  method : Option String := none
  headers : Option SMap := none
  postData : Option String := none
  deriving DecidableEq, Repr

/-- What `dispatchPaused` does with one paused event. -/
inductive DispatchOutcome where
  | ownTask
  | pooled
  | degraded (args : ContinueRequestArgs)
  deriving DecidableEq, Repr

/-- `degradeAndContinue` (handler.go:140-149): issue `ContinueRequest`
with only the request id (no modification), then emit a `degraded` event —
again with a plain blocking send. -/
def degradeAndContinue (requestID : String) (ch : Chan Event) :
    Option (DispatchOutcome × Chan Event) := do
  let args : ContinueRequestArgs := { requestID := requestID }
  let ch ← chanSend ch { type := "degraded" }
  some (.degraded args, ch)

/-- `dispatchPaused` (handler.go:86-97).  `pool = none` models
`m.pool == nil`; `some accepted` models a configured pool whose
`submit` returned `accepted`.  It runs on the consumer goroutine
(`consume`, handler.go:100-118). -/
def dispatchPaused (pool : Option Bool) (requestID : String) (ch : Chan Event) :
    Option (DispatchOutcome × Chan Event) :=
  match pool with
  | none => some (.ownTask, ch)
  | some true => some (.pooled, ch)
  | some false => degradeAndContinue requestID ch

end Cdpnetool.Cdp

namespace Cdpnetool.Executor

open Cdpnetool Cdpnetool.Cdp

/-! ## Data shapes of the executor package

`rulespec.Action` is declared in a package whose files are not part of the
sources; the field set below is exactly what the executor reads
(`Type`, `Value`, `Name`, `ReplaceAll`, `Search`, `Replace`, `Patches`,
`StatusCode`, `Headers`, `Body`, `GetEncoding()`, `GetBodyEncoding()`). -/

/-- The dynamic value `action.Value interface{}` together with the type
assertions performed on it (`.(string)`, `.(float64)`/`.(int)`); numeric
JSON values relevant here are integral status codes. -/
inductive GoVal where
  | vstr (s : String)
  | vnum (n : Int)
  | vother
  deriving DecidableEq, Repr

/-- Body encoding resolved by `GetEncoding`/`GetBodyEncoding`
(default `utf8`). -/
inductive BodyEncoding where
  | utf8
  | base64
  deriving DecidableEq, Repr

/-- `rulespec.JSONPatchOp` (`Op`, `Path`, `Value`). -/
structure JSONPatchOp where
  op : String
  path : String
  value : GoVal := .vother
  deriving DecidableEq, Repr

/-- The `rulespec.Action*` type constants the executor switches on;
`other` covers any tag the `switch` sends to no case. -/
inductive ActionType where
  | setUrl
  | setMethod
  | setHeader
  | removeHeader
  | setQueryParam
  | removeQueryParam
  | setCookie
  | removeCookie
  | setBody
  | appendBody
  | replaceBodyText
  | patchBodyJson
  | setFormField
  | removeFormField
  | block
  | setStatus
  | other
  deriving DecidableEq, Repr

/-- `rulespec.Action` (fields read by the executor). -/
structure Action where
  type : ActionType
  value : GoVal := .vother
  name : String := ""
  replaceAll : Bool := false
  search : String := ""
  replace : String := ""
  patches : List JSONPatchOp := []
  statusCode : Int := 0
  headers : SMap := []
  body : String := ""
  encoding : BodyEncoding := .utf8
  bodyEncoding : BodyEncoding := .utf8
  deriving DecidableEq, Repr

/-- The rule stages (`rulespec.StageRequest` / `rulespec.StageResponse`). -/
inductive Stage where
  | request
  | response
  deriving DecidableEq, Repr

/-- `rules.MatchedRule`, restricted to the rule fields the executor reads
(`Rule.Stage`, `Rule.Actions`). -/
structure MatchedRule where
  stage : Stage
  actions : List Action
  deriving DecidableEq, Repr

/-- The paused event fields the executor reads.  `requestHeaders` is the
header object of `ev.Request.Headers` after `json.Unmarshal` (a JSON
object, hence a map without duplicate keys); `responseHeaders` is the
`[]fetch.HeaderEntry` list, in wire order. -/
structure PausedEvent where
  requestID : String := ""
  requestURL : String := ""
  requestMethod : String := ""
  requestHeaders : SMap := []
  postData : Option String := none
  resourceType : String := ""
  responseStatusCode : Option Int := none
  responseHeaders : List (String × String) := []
  deriving DecidableEq, Repr

/-- External primitives the executor calls whose implementations live in
third-party or standard-library packages (`net/url` parsing and query
re-encoding, `tidwall/sjson`, the cookie parser of `internal/protocol`).
The executor's behaviour is proved for every implementation of these. -/
structure Prims where
  /-- `url.Parse` + query edit + `Encode` + `String` of `buildFinalURL`,
  including the parse-failure fallback to the base URL. -/
  parseEditURL : String → SMap → List String → String
  /-- `sjson.Set` (`none` is an error result). -/
  sjsonSet : String → String → GoVal → Option String
  /-- `sjson.Delete` (`none` is an error result). -/
  sjsonDelete : String → String → Option String
  /-- `setURLEncodedField` (parse + set + re-encode, body on parse error). -/
  setURLEncodedField : String → String → String → String
  /-- `removeURLEncodedField`. -/
  removeURLEncodedField : String → String → String
  /-- `protocol.ParseCookie`. -/
  parseCookie : String → SMap

/-- `protocol.GetRequestBody`.  Modelled from the spec: the
`internal/protocol` helper is not among the sources; per §3 the evaluation
context carries the decoded request body, which `fetch.RequestPausedReply`
exposes as `Request.PostData` (see `buildRuleContext` in `manager.go`,
which reads `*ev.Request.PostData` when present and leaves the body empty
otherwise). -/
def GetRequestBody (ev : PausedEvent) : String :=
  ev.postData.getD ""

/-- `RequestMutation` (executor). -/
structure RequestMutation where
  url : Option String := none
  method : Option String := none
  headers : SMap := []
  removeHeaders : List String := []
  query : SMap := []
  removeQuery : List String := []
  cookies : SMap := []
  removeCookies : List String := []
  body : Option String := none
  deriving DecidableEq, Repr

/-- `BlockResponse` (executor); `body = none` models the nil byte slice
left when `action.Body == ""`. -/
structure BlockResponse where
  statusCode : Int := 0
  headers : SMap := []
  body : Option String := none
  deriving DecidableEq, Repr

/-- `ResponseMutation` (executor). -/
structure ResponseMutation where
  statusCode : Option Int := none
  headers : SMap := []
  removeHeaders : List String := []
  body : Option String := none
  deriving DecidableEq, Repr

/-- `RequestMutation.Merge` (executor source lines 118-152): `set-*`
singletons are overridden by the later mutation, `set-*` maps are written
key by key into the earlier map, `remove-*` lists are appended. -/
def RequestMutation.Merge (m src : RequestMutation) : RequestMutation where
  url := match src.url with | some u => some u | none => m.url
  method := match src.method with | some v => some v | none => m.method
  headers := mergeMapGo m.headers src.headers
  query := mergeMapGo m.query src.query
  cookies := mergeMapGo m.cookies src.cookies
  removeHeaders := m.removeHeaders ++ src.removeHeaders
  removeQuery := m.removeQuery ++ src.removeQuery
  removeCookies := m.removeCookies ++ src.removeCookies
  body := match src.body with | some b => some b | none => m.body

/-- `ResponseMutation.Merge` (executor source lines 186-203). -/
def ResponseMutation.Merge (m src : ResponseMutation) : ResponseMutation where
  statusCode := match src.statusCode with | some c => some c | none => m.statusCode
  headers := mergeMapGo m.headers src.headers
  removeHeaders := m.removeHeaders ++ src.removeHeaders
  body := match src.body with | some b => some b | none => m.body

/-- `strings.Replace(s, search, replace, 1)`: replace the first
occurrence; with an empty pattern Go inserts the replacement in front. -/
def replFirstAux (pat rep : List Char) : List Char → List Char
  | [] => []
  | c :: rest =>
    if pat.isPrefixOf (c :: rest) then rep ++ (c :: rest).drop pat.length
    else c :: replFirstAux pat rep rest

def goReplaceFirst (s pat rep : String) : String :=
  if pat.isEmpty then rep ++ s else ⟨replFirstAux pat.data rep.data s.data⟩

/-- `strings.ReplaceAll(s, search, replace)`; with an empty pattern Go
interleaves the replacement, an edge no rule relies on — the model keeps
`s` in that case. -/
def replAllAux (pat rep : List Char) : List Char → List Char
  | [] => []
  | c :: rest =>
    if pat ≠ [] ∧ pat.isPrefixOf (c :: rest) then
      rep ++ replAllAux pat rep ((c :: rest).drop pat.length)
    else c :: replAllAux pat rep rest
termination_by l => l.length
decreasing_by
  · simp only [List.length_drop, List.length_cons]
    have hp : 0 < pat.length := List.length_pos.mpr (by tauto)
    omega
  · simp only [List.length_cons]
    omega

def goReplaceAll (s pat rep : String) : String :=
  if pat.isEmpty then s else ⟨replAllAux pat.data rep.data s.data⟩

/-- `strings.Contains`. -/
def goContains (s sub : String) : Bool :=
  if sub = "" then true else (s.splitOn sub).length ≥ 2

/-- `getContentType` (executor): first `content-type` header of the
request, compared case-insensitively. -/
def getContentType (ev : PausedEvent) : String :=
  match ev.requestHeaders.find? (fun e => eqFold e.1 "content-type") with
  | some e => e.2
  | none => ""

/-- `applyJSONPatches` (executor): `none` models the error return, in
which case the caller leaves the body unchanged. -/
def applyJSONPatches (pr : Prims) (body : String) (patches : List JSONPatchOp) :
    Option String :=
  if body = "" ∨ patches = [] then some body
  else go body patches
where
  go (current : String) : List JSONPatchOp → Option String
    | [] => some current
    | patch :: rest =>
      if patch.path = "" then go current rest
      else
        let path0 := if patch.path.startsWith "/" then patch.path.drop 1 else patch.path
        let path := goReplaceAll path0 "/" "."
        if patch.op = "add" ∨ patch.op = "replace" then
          match pr.sjsonSet current path patch.value with
          | some next => go next rest
          | none => none
        else if patch.op = "remove" then
          match pr.sjsonDelete current path with
          | some next => go next rest
          | none => none
        else go current rest

/-- `setFormField` (executor). -/
def setFormField (pr : Prims) (ev : PausedEvent) (body name value : String) : String :=
  let ct := getContentType ev
  if goContains ct "application/x-www-form-urlencoded" then
    pr.setURLEncodedField body name value
  else body

/-- `removeFormField` (executor). -/
def removeFormField (pr : Prims) (ev : PausedEvent) (body name : String) : String :=
  let ct := getContentType ev
  if goContains ct "application/x-www-form-urlencoded" then
    pr.removeURLEncodedField body name
  else body

/-- The block state captured by the `ActionBlock` case: status code and
headers from the action; the body only when `action.Body != ""`, base64
decoded when so declared, the raw string on a decode failure. -/
def mkBlock (a : Action) : BlockResponse where
  statusCode := a.statusCode
  headers := a.headers
  body :=
    if a.body = "" then none
    else if a.bodyEncoding = .base64 then
      some ((goBase64Decode a.body).getD a.body)
    else some a.body

/-- One step of the `switch action.Type` loop of `ExecuteRequestActions`:
either the mutation and running body continue, or a block terminates the
rule. -/
inductive ReqStep where
  | cont (m : RequestMutation) (body : String)
  | blocked (b : BlockResponse)

/-- The body of the `switch` in `ExecuteRequestActions` (executor source
lines 248-353), acting on the accumulated per-rule mutation and the
running body. -/
def stepRequestAction (pr : Prims) (ev : PausedEvent) (a : Action)
    (m : RequestMutation) (body : String) : ReqStep :=
  match a.type with
  | .setUrl =>
    match a.value with
    | .vstr v => .cont { m with url := some v } body
    | _ => .cont m body
  | .setMethod =>
    match a.value with
    | .vstr v => .cont { m with method := some v } body
    | _ => .cont m body
  | .setHeader =>
    match a.value with
    | .vstr v => .cont { m with headers := mapSet m.headers a.name v } body
    | _ => .cont m body
  | .removeHeader => .cont { m with removeHeaders := m.removeHeaders ++ [a.name] } body
  | .setQueryParam =>
    match a.value with
    | .vstr v => .cont { m with query := mapSet m.query a.name v } body
    | _ => .cont m body
  | .removeQueryParam => .cont { m with removeQuery := m.removeQuery ++ [a.name] } body
  | .setCookie =>
    match a.value with
    | .vstr v => .cont { m with cookies := mapSet m.cookies a.name v } body
    | _ => .cont m body
  | .removeCookie => .cont { m with removeCookies := m.removeCookies ++ [a.name] } body
  | .setBody =>
    match a.value with
    | .vstr v =>
      let newBody := if a.encoding = .base64 then (goBase64Decode v).getD v else v
      .cont { m with body := some newBody } newBody
    | _ => .cont m body
  | .appendBody =>
    match a.value with
    | .vstr v =>
      let appendText := if a.encoding = .base64 then (goBase64Decode v).getD v else v
      let newBody := body ++ appendText
      .cont { m with body := some newBody } newBody
    | _ => .cont m body
  | .replaceBodyText =>
    let newBody :=
      if a.replaceAll then goReplaceAll body a.search a.replace
      else goReplaceFirst body a.search a.replace
    .cont { m with body := some newBody } newBody
  | .patchBodyJson =>
    match applyJSONPatches pr body a.patches with
    | some newBody => .cont { m with body := some newBody } newBody
    | none => .cont m body
  | .setFormField =>
    match a.value with
    | .vstr v =>
      let newBody := setFormField pr ev body a.name v
      .cont { m with body := some newBody } newBody
    | _ => .cont m body
  | .removeFormField =>
    let newBody := removeFormField pr ev body a.name
    .cont { m with body := some newBody } newBody
  | .block => .blocked (mkBlock a)
  | .setStatus => .cont m body
  | .other => .cont m body

/-- The action loop of `ExecuteRequestActions`: on a block the current
mutation is returned at once together with the block (`return mut` after
setting `e.block`), the rest of the sequence is never examined. -/
def execReqActionsAux (pr : Prims) (ev : PausedEvent) :
    List Action → RequestMutation → String → RequestMutation × Option BlockResponse
  | [], m, _ => (m, none)
  | a :: rest, m, body =>
    match stepRequestAction pr ev a m body with
    | .cont m' body' => execReqActionsAux pr ev rest m' body'
    | .blocked b => (m, some b)

/-- `ExecuteRequestActions` (executor source lines 235-357): fresh empty
mutation, running body initialised from the original request body. -/
def ExecuteRequestActions (pr : Prims) (ev : PausedEvent) (actions : List Action) :
    RequestMutation × Option BlockResponse :=
  execReqActionsAux pr ev actions {} (GetRequestBody ev)

/-- The rule loop of `ExecuteRequest` (executor source lines 97-106):
non-request rules are skipped; when a rule's execution set the block
state, the loop stops at once and that rule's own mutation is not merged. -/
def execRequestRules (pr : Prims) (ev : PausedEvent) :
    List MatchedRule → RequestMutation → RequestMutation × Option BlockResponse
  | [], acc => (acc, none)
  | mr :: rest, acc =>
    if mr.stage ≠ .request then execRequestRules pr ev rest acc
    else
      match ExecuteRequestActions pr ev mr.actions with
      | (_, some b) => (acc, some b)
      | (m, none) => execRequestRules pr ev rest (acc.Merge m)

/-- `HasRequestMutation` (executor source lines 206-218). -/
def HasRequestMutation (m : RequestMutation) (block : Option BlockResponse) : Bool :=
  if block.isSome then true
  else
    m.url.isSome || m.method.isSome ||
      m.headers.length > 0 || m.query.length > 0 || m.cookies.length > 0 ||
      m.removeHeaders.length > 0 || m.removeQuery.length > 0 || m.removeCookies.length > 0 ||
      m.body.isSome

/-- `HasResponseMutation` (executor source lines 221-227). -/
def HasResponseMutation (m : ResponseMutation) : Bool :=
  m.statusCode.isSome || m.headers.length > 0 || m.removeHeaders.length > 0 || m.body.isSome

/-- `IsLongConnectionType` (executor source lines 827-841). -/
def IsLongConnectionType (ev : PausedEvent) : Bool :=
  if ev.resourceType = "WebSocket" ∨ ev.resourceType = "EventSource" then true
  else ev.requestHeaders.any (fun e => eqFold e.1 "upgrade" && eqFold e.2 "websocket")

/-- `buildFinalURL` (executor source lines 550-584). -/
def buildFinalURL (pr : Prims) (ev : PausedEvent) (m : RequestMutation) : Option String :=
  if m.url = none ∧ m.query = [] ∧ m.removeQuery = [] then none
  else
    let baseURL := m.url.getD ev.requestURL
    if m.query = [] ∧ m.removeQuery = [] then some baseURL
    else some (pr.parseEditURL baseURL m.query m.removeQuery)

/-- `buildFinalHeaders` (executor source lines 587-643): original request
headers, case-insensitive removals, `set-header` writes, then the cookie
rebuild. -/
def buildFinalHeaders (pr : Prims) (ev : PausedEvent) (m : RequestMutation) : SMap :=
  let h0 := ev.requestHeaders
  let h1 := m.removeHeaders.foldl mapDelFold h0
  let h2 := mergeMapGo h1 m.headers
  if m.cookies.length > 0 ∨ m.removeCookies.length > 0 then
    let cookieStr := ((h2.find? (fun e => eqFold e.1 "cookie")).map Prod.snd).getD ""
    let cookies0 := pr.parseCookie cookieStr
    let cookies1 := m.removeCookies.foldl (fun cs n => cs.filter (fun e => e.1 ≠ n)) cookies0
    let cookies2 := mergeMapGo cookies1 m.cookies
    if cookies2.length > 0 then
      mapSet h2 "Cookie" (String.intercalate "; " (cookies2.map (fun e => e.1 ++ "=" ++ e.2)))
    else
      ((h2.filter (fun e => e.1 ≠ "Cookie")).filter (fun e => e.1 ≠ "cookie"))
  else h2

/-- `fetch.FulfillRequestArgs` as built by the executor. -/
structure FulfillArgs where
  requestID : String
  responseCode : Int
  responseHeaders : Option SMap := none
  body : Option String := none
  deriving DecidableEq, Repr

/-- `fetch.ContinueResponseArgs` as built by the executor. -/
structure ContinueResponseArgs where
  requestID : String
  responseCode : Option Int := none
  responseHeaders : Option SMap := none
  deriving DecidableEq, Repr

/-- `BuildRequestArgs` (executor source lines 431-473). -/
def BuildRequestArgs (pr : Prims) (ev : PausedEvent) (m : RequestMutation)
    (block : Option BlockResponse) :
    Option Cdp.ContinueRequestArgs × Option FulfillArgs :=
  match block with
  | some b =>
    (none, some
      { requestID := ev.requestID
        responseCode := b.statusCode
        responseHeaders := if b.headers.length > 0 then some b.headers else none
        body := match b.body with
          | some bd => if bd.length > 0 then some bd else none
          | none => none })
  | none =>
    let headers := buildFinalHeaders pr ev m
    (some
      { requestID := ev.requestID
        url := buildFinalURL pr ev m
        method := m.method
        headers := if headers.length > 0 then some headers else none
        postData := m.body }, none)

/-- `ExecutionResult` (executor source lines 77-84). -/
structure ExecutionResult where
  isBlocked : Bool := false
  isModified : Bool := false
  isLongConn : Bool := false
  continueArgs : Option Cdp.ContinueRequestArgs := none
  fulfillArgs : Option FulfillArgs := none
  continueRes : Option ContinueResponseArgs := none
  deriving DecidableEq, Repr

/-- `ExecuteRequest` (executor source lines 87-115). -/
def ExecuteRequest (pr : Prims) (ev : PausedEvent) (matchedRules : List MatchedRule) :
    ExecutionResult :=
  let (m, block) := execRequestRules pr ev matchedRules {}
  let (ca, fa) := BuildRequestArgs pr ev m block
  { isBlocked := block.isSome
    isModified := HasRequestMutation m block
    isLongConn := IsLongConnectionType ev
    continueArgs := ca
    fulfillArgs := fa }

/-- The body of the `switch` in `ExecuteResponseActions` (executor source
lines 368-425). -/
def stepResponseAction (pr : Prims) (a : Action)
    (m : ResponseMutation) (body : String) : ResponseMutation × String :=
  match a.type with
  | .setStatus =>
    match a.value with
    | .vnum n => ({ m with statusCode := some n }, body)
    | _ => (m, body)
  | .setHeader =>
    match a.value with
    | .vstr v => ({ m with headers := mapSet m.headers a.name v }, body)
    | _ => (m, body)
  | .removeHeader => ({ m with removeHeaders := m.removeHeaders ++ [a.name] }, body)
  | .setBody =>
    match a.value with
    | .vstr v =>
      let newBody := if a.encoding = .base64 then (goBase64Decode v).getD v else v
      ({ m with body := some newBody }, newBody)
    | _ => (m, body)
  | .appendBody =>
    match a.value with
    | .vstr v =>
      let appendText := if a.encoding = .base64 then (goBase64Decode v).getD v else v
      let newBody := body ++ appendText
      ({ m with body := some newBody }, newBody)
    | _ => (m, body)
  | .replaceBodyText =>
    let newBody :=
      if a.replaceAll then goReplaceAll body a.search a.replace
      else goReplaceFirst body a.search a.replace
    ({ m with body := some newBody }, newBody)
  | .patchBodyJson =>
    match applyJSONPatches pr body a.patches with
    | some newBody => ({ m with body := some newBody }, newBody)
    | none => (m, body)
  | _ => (m, body)

/-- `ExecuteResponseActions` (executor source lines 360-428). -/
def ExecuteResponseActions (pr : Prims) (actions : List Action)
    (responseBody : String) : ResponseMutation :=
  (actions.foldl (fun st a => stepResponseAction pr a st.1 st.2) (({} : ResponseMutation), responseBody)).1

/-- `ExecuteResponse`'s rule loop (executor source lines 162-171): the
running body advances to each rule's explicit body mutation. -/
def execResponseRules (pr : Prims) :
    List MatchedRule → ResponseMutation → String → ResponseMutation × String
  | [], acc, body => (acc, body)
  | mr :: rest, acc, body =>
    if mr.stage ≠ .response then execResponseRules pr rest acc body
    else
      let m := ExecuteResponseActions pr mr.actions body
      let body' := match m.body with | some b => b | none => body
      execResponseRules pr rest (acc.Merge m) body'

/-- `buildFinalResponseHeaders` (executor source lines 646-682): original
response headers collapsed into a map, case-insensitive removals, then —
only when the body mutation is set — the four banned headers dropped, and
finally the `set-header` writes. -/
def bannedHeaders : List String :=
  ["content-encoding", "content-length", "content-md5", "etag"]

def buildFinalResponseHeaders (ev : PausedEvent) (m : ResponseMutation) : SMap :=
  let h0 := ev.responseHeaders.foldl (fun acc e => mapSet acc e.1 e.2) []
  let h1 := m.removeHeaders.foldl mapDelFold h0
  let h2 := if m.body.isSome then bannedHeaders.foldl mapDelFold h1 else h1
  mergeMapGo h2 m.headers

/-- `BuildResponseArgs` (executor source lines 476-517). -/
def BuildResponseArgs (ev : PausedEvent) (m : ResponseMutation) :
    Option ContinueResponseArgs × Option FulfillArgs :=
  match m.body with
  | some bd =>
    let code := m.statusCode.getD (ev.responseStatusCode.getD 200)
    (none, some
      { requestID := ev.requestID
        responseCode := code
        responseHeaders := some (buildFinalResponseHeaders ev m)
        body := some bd })
  | none =>
    let hasMutation := m.statusCode.isSome || m.headers.length > 0 || m.removeHeaders.length > 0
    if hasMutation then
      let code := m.statusCode.getD (ev.responseStatusCode.getD 200)
      (some
        { requestID := ev.requestID
          responseCode := some code
          responseHeaders := some (buildFinalResponseHeaders ev m) }, none)
    else (some { requestID := ev.requestID }, none)

/-- `ExecuteResponse` (executor source lines 155-183). -/
def ExecuteResponse (pr : Prims) (ev : PausedEvent) (matchedRules : List MatchedRule)
    (originalBody : String) : ExecutionResult :=
  let (m0, currentBody) := execResponseRules pr matchedRules {} originalBody
  let m := if m0.body = none ∧ currentBody ≠ originalBody
    then { m0 with body := some currentBody } else m0
  let (cr, fa) := BuildResponseArgs ev m
  { isModified := HasResponseMutation m
    continueRes := cr
    fulfillArgs := fa }

end Cdpnetool.Executor

namespace Cdpnetool.Executor

open Cdpnetool

/-! ## Derived notions used to state the claims -/

/-- A block action occurs in an action sequence (the executor stops at the
first one, so a sequence free of block actions never sets the block
state). -/
def hasBlockAction (acts : List Action) : Bool :=
  acts.any fun a => decide (a.type = ActionType.block)

/-- No request-stage rule of the list carries a block action. -/
def requestRulesNoBlock (rs : List MatchedRule) : Bool :=
  rs.all fun r => decide (r.stage ≠ Stage.request) || !hasBlockAction r.actions

/-- The request mutation accumulated over a rule list in rule order — the
fold of `Merge` the claims describe. -/
def requestMutationOfRules (pr : Prims) (ev : PausedEvent)
    (rs : List MatchedRule) : RequestMutation :=
  rs.foldl
    (fun acc r =>
      if r.stage = Stage.request then acc.Merge (ExecuteRequestActions pr ev r.actions).1
      else acc) {}

/-- Lookup-equality of two Go maps (Go maps are unordered, so this is map
equality). -/
def MapEq (m₁ m₂ : SMap) : Prop := ∀ k, mapGet m₁ k = mapGet m₂ k

/-- Equality of request mutations, with the Go-map fields compared as
maps. -/
def RequestMutation.Equiv (x y : RequestMutation) : Prop :=
  x.url = y.url ∧ x.method = y.method ∧ x.body = y.body ∧
    x.removeHeaders = y.removeHeaders ∧ x.removeQuery = y.removeQuery ∧
    x.removeCookies = y.removeCookies ∧
    MapEq x.headers y.headers ∧ MapEq x.query y.query ∧ MapEq x.cookies y.cookies

/-- Equality of response mutations, with the Go-map field compared as a
map. -/
def ResponseMutation.Equiv (x y : ResponseMutation) : Prop :=
  x.statusCode = y.statusCode ∧ x.body = y.body ∧
    x.removeHeaders = y.removeHeaders ∧ MapEq x.headers y.headers

/-- A concrete instantiation of the external primitives, for evaluating
the theorems on explicit inputs. -/
def trivialPrims : Prims where
  parseEditURL := fun base _ _ => base
  sjsonSet := fun b _ _ => some b
  sjsonDelete := fun b _ => some b
  setURLEncodedField := fun b _ _ => b
  removeURLEncodedField := fun b _ => b
  parseCookie := fun _ => []

end Cdpnetool.Executor

namespace Cdpnetool

/-! ## Lemmas about the Go map model -/

/-- Left-biased choice on options (Go's "later write wins" reads through
`opOr later earlier`). -/
def opOr {α : Type} : Option α → Option α → Option α
  | some x, _ => some x
  | none, b => b

@[simp] theorem opOr_none_left {α : Type} (b : Option α) : opOr none b = b := rfl

@[simp] theorem opOr_some_left {α : Type} (x : α) (b : Option α) :
    opOr (some x) b = some x := rfl

@[simp] theorem opOr_none_right {α : Type} (a : Option α) : opOr a none = a := by
  cases a <;> rfl

theorem opOr_assoc {α : Type} (a b c : Option α) :
    opOr (opOr a b) c = opOr a (opOr b c) := by
  cases a <;> cases b <;> rfl

theorem mapGet_mapSet (m : SMap) (k v : String) (k' : String) :
    mapGet (mapSet m k v) k' = if k = k' then some v else mapGet m k' := by
  induction m with
  | nil => simp [mapSet, mapGet]
  | cons e t ih =>
    by_cases h : e.1 = k
    · simp only [mapSet, h, if_pos rfl]
      by_cases h' : k = k'
      · simp [mapGet, h', h]
      · simp [mapGet, h', h, h ▸ h']
    · simp only [mapSet, if_neg h]
      by_cases h' : e.1 = k'
      · have : k ≠ k' := fun hk => h (hk ▸ h')
        simp [mapGet, h', this]
      · simp [mapGet, h', ih]

theorem mapGet_append (xs ys : SMap) (k : String) :
    mapGet (xs ++ ys) k = opOr (mapGet xs k) (mapGet ys k) := by
  induction xs with
  | nil => simp [mapGet]
  | cons e t ih =>
    by_cases h : e.1 = k
    · simp [mapGet, h]
    · simp [mapGet, h, ih]

theorem mapGet_eq_none_of_notin (m : SMap) (k : String)
    (h : ∀ e ∈ m, e.1 ≠ k) : mapGet m k = none := by
  induction m with
  | nil => rfl
  | cons e t ih =>
    have he : e.1 ≠ k := h e (by simp)
    simp only [mapGet, if_neg he]
    exact ih (fun e' he' => h e' (by simp [he']))

/-- The central merge lemma: a key's value after the Go merge loop is the
value of the last write in `src`, else the value in `dst`. -/
theorem mapGet_mergeMapGo (src dst : SMap) (k : String) :
    mapGet (mergeMapGo dst src) k = opOr (mapGet src.reverse k) (mapGet dst k) := by
  induction src generalizing dst with
  | nil => simp [mergeMapGo, mapGet]
  | cons e t ih =>
    have step : mergeMapGo dst (e :: t) = mergeMapGo (mapSet dst e.1 e.2) t := rfl
    rw [step, ih]
    have hrev : (e :: t).reverse = t.reverse ++ [e] := by simp
    rw [hrev, mapGet_append, opOr_assoc]
    congr 1
    rw [mapGet_mapSet]
    by_cases h : e.1 = k
    · simp [mapGet, h]
    · simp [mapGet, h]

theorem keys_mapSet (m : SMap) (k v : String) :
    (mapSet m k v).map Prod.fst =
      if k ∈ m.map Prod.fst then m.map Prod.fst else m.map Prod.fst ++ [k] := by
  induction m with
  | nil => simp [mapSet]
  | cons e t ih =>
    by_cases h : e.1 = k
    · simp [mapSet, h]
    · have : k ≠ e.1 := fun hk => h hk.symm
      simp only [mapSet, if_neg h, List.map_cons, ih]
      by_cases hk : k ∈ t.map Prod.fst <;> simp [hk, this]

theorem WFMap_mapSet (m : SMap) (k v : String) (h : WFMap m) :
    WFMap (mapSet m k v) := by
  unfold WFMap at h ⊢
  rw [keys_mapSet]
  by_cases hk : k ∈ m.map Prod.fst
  · simpa [hk] using h
  · simp only [hk, if_false]
    exact List.Nodup.append h (List.nodup_singleton k)
      (by simpa [List.disjoint_singleton] using hk)

theorem WFMap_mergeMapGo (m s : SMap) (h : WFMap m) : WFMap (mergeMapGo m s) := by
  induction s generalizing m with
  | nil => exact h
  | cons e t ih => exact ih (mapSet m e.1 e.2) (WFMap_mapSet m e.1 e.2 h)

/-- On a map without duplicate keys, looking up from the right equals
looking up from the left (there is at most one matching entry). -/
theorem mapGet_reverse_of_WF (m : SMap) (k : String) (h : WFMap m) :
    mapGet m.reverse k = mapGet m k := by
  induction m with
  | nil => rfl
  | cons e t ih =>
    have hnd : e.1 ∉ t.map Prod.fst ∧ WFMap t := by
      simpa [WFMap, List.nodup_cons] using h
    have hrev : (e :: t).reverse = t.reverse ++ [e] := by simp
    rw [hrev, mapGet_append, ih hnd.2]
    by_cases hk : e.1 = k
    · have : mapGet t k = none := by
        apply mapGet_eq_none_of_notin
        intro e' he' hke
        have hmem : e'.1 ∈ t.map Prod.fst := List.mem_map_of_mem Prod.fst he'
        rw [hke, ← hk] at hmem
        exact hnd.1 hmem
      simp [mapGet, hk, this]
    · simp [mapGet, hk]

theorem mapGet_mergeMapGo_of_WF (src dst : SMap) (k : String) (h : WFMap src) :
    mapGet (mergeMapGo dst src) k = opOr (mapGet src k) (mapGet dst k) := by
  rw [mapGet_mergeMapGo, mapGet_reverse_of_WF src k h]

/-- Associativity of the merge loop at the level of lookups, for a
well-formed middle operand. -/
theorem mergeMapGo_assoc (a b c : SMap) (hb : WFMap b) (k : String) :
    mapGet (mergeMapGo (mergeMapGo a b) c) k =
      mapGet (mergeMapGo a (mergeMapGo b c)) k := by
  rw [mapGet_mergeMapGo c (mergeMapGo a b) k, mapGet_mergeMapGo b a k]
  rw [mapGet_mergeMapGo (mergeMapGo b c) a k]
  rw [mapGet_reverse_of_WF (mergeMapGo b c) k (WFMap_mergeMapGo b c hb)]
  rw [mapGet_mergeMapGo c b k, mapGet_reverse_of_WF b k hb]
  rw [opOr_assoc]

theorem mapGet_mapDelFold_of_fold (m : SMap) (name k : String)
    (h : eqFold k name = true) : mapGet (mapDelFold m name) k = none := by
  apply mapGet_eq_none_of_notin
  intro e he hke
  have := List.of_mem_filter he
  rw [hke, h] at this
  simp at this

theorem mapGet_mapDelFold_none (m : SMap) (name k : String)
    (h : mapGet m k = none) : mapGet (mapDelFold m name) k = none := by
  apply mapGet_eq_none_of_notin
  intro e he hke
  induction m with
  | nil => simp [mapDelFold] at he
  | cons e' t ih =>
    rcases List.mem_filter.mp he with ⟨hmem, _⟩
    rcases List.mem_cons.mp hmem with h1 | h1
    · subst h1
      rw [mapGet, hke, if_pos rfl] at h
      cases h
    · have ht : mapGet t k = none := by
        by_cases hh : e'.1 = k
        · rw [mapGet, if_pos hh] at h; cases h
        · rwa [mapGet, if_neg hh] at h
      exact ih ht (List.mem_filter.mpr ⟨h1, (List.mem_filter.mp he).2⟩)

theorem mapGet_foldl_mapDelFold_none (names : List String) (m : SMap) (k : String)
    (h : mapGet m k = none) : mapGet (names.foldl mapDelFold m) k = none := by
  induction names generalizing m with
  | nil => exact h
  | cons n t ih => exact ih (mapDelFold m n) (mapGet_mapDelFold_none m n k h)

/-- After folding case-insensitive deletions over a list of names, any key
matching one of the names is gone. -/
theorem mapGet_foldl_mapDelFold_hit :
    ∀ (names : List String) (m : SMap) (k b : String), b ∈ names →
      eqFold k b = true → mapGet (names.foldl mapDelFold m) k = none := by
  intro names
  induction names with
  | nil => intro m k b hb _; cases hb
  | cons n t ih =>
    intro m k b hb h
    rcases List.mem_cons.mp hb with h1 | h1
    · subst h1
      exact mapGet_foldl_mapDelFold_none t (mapDelFold m b) k
        (mapGet_mapDelFold_of_fold m b k h)
    · exact ih (mapDelFold m n) k b h1 h

end Cdpnetool

namespace Cdpnetool.Executor

open Cdpnetool

/-! ## Lemmas about the request-stage executor -/

theorem stepRequestAction_block (pr : Prims) (ev : PausedEvent) (a : Action)
    (m : RequestMutation) (body : String) (ha : a.type = ActionType.block) :
    stepRequestAction pr ev a m body = .blocked (mkBlock a) := by
  unfold stepRequestAction
  rw [ha]

theorem stepRequestAction_cont (pr : Prims) (ev : PausedEvent) (a : Action)
    (m : RequestMutation) (body : String) (ha : a.type ≠ ActionType.block) :
    ∃ m' body', stepRequestAction pr ev a m body = .cont m' body' := by
  unfold stepRequestAction
  cases ht : a.type <;>
    first
      | exact absurd ht ha
      | exact ⟨_, _, rfl⟩
      | (cases a.value <;> exact ⟨_, _, rfl⟩)
      | (cases applyJSONPatches pr body a.patches <;> exact ⟨_, _, rfl⟩)

theorem hasBlockAction_cons (a : Action) (t : List Action)
    (h : hasBlockAction (a :: t) = false) :
    a.type ≠ ActionType.block ∧ hasBlockAction t = false := by
  unfold hasBlockAction at h
  simp only [List.any_cons, Bool.or_eq_false_iff, decide_eq_false_iff_not] at h
  exact ⟨h.1, by unfold hasBlockAction; exact h.2⟩

theorem execReqActionsAux_no_block (pr : Prims) (ev : PausedEvent) :
    ∀ (acts : List Action), hasBlockAction acts = false →
      ∀ m body, (execReqActionsAux pr ev acts m body).2 = none := by
  intro acts
  induction acts with
  | nil => intro _ m body; rfl
  | cons a t ih =>
    intro h m body
    obtain ⟨ha, ht⟩ := hasBlockAction_cons a t h
    obtain ⟨m', body', hstep⟩ := stepRequestAction_cont pr ev a m body ha
    unfold execReqActionsAux
    rw [hstep]
    exact ih ht m' body'

theorem execReqActionsAux_append_of_no_block (pr : Prims) (ev : PausedEvent) :
    ∀ (pre : List Action), hasBlockAction pre = false →
      ∀ m body, ∃ m' body', ∀ rest,
        execReqActionsAux pr ev (pre ++ rest) m body =
          execReqActionsAux pr ev rest m' body' := by
  intro pre
  induction pre with
  | nil => intro _ m body; exact ⟨m, body, fun rest => rfl⟩
  | cons a t ih =>
    intro h m body
    obtain ⟨ha, ht⟩ := hasBlockAction_cons a t h
    obtain ⟨m1, body1, hstep⟩ := stepRequestAction_cont pr ev a m body ha
    obtain ⟨m', body', hrest⟩ := ih ht m1 body1
    refine ⟨m', body', fun rest => ?_⟩
    have hcons : execReqActionsAux pr ev ((a :: t) ++ rest) m body =
        execReqActionsAux pr ev (t ++ rest) m1 body1 := by
      show execReqActionsAux pr ev (a :: (t ++ rest)) m body = _
      simp only [execReqActionsAux, hstep]
    rw [hcons, hrest rest]

/-- Executing a sequence that reaches a block: the suffix after the block
is irrelevant and the block state is the block action's. -/
theorem execReqActionsAux_block (pr : Prims) (ev : PausedEvent)
    (pre post : List Action) (a : Action) (ha : a.type = ActionType.block)
    (hpre : hasBlockAction pre = false) (m : RequestMutation) (body : String) :
    execReqActionsAux pr ev (pre ++ a :: post) m body =
        execReqActionsAux pr ev (pre ++ [a]) m body ∧
      (execReqActionsAux pr ev (pre ++ a :: post) m body).2 = some (mkBlock a) := by
  obtain ⟨m', body', hrest⟩ := execReqActionsAux_append_of_no_block pr ev pre hpre m body
  have hblk : ∀ rest, execReqActionsAux pr ev (a :: rest) m' body' = (m', some (mkBlock a)) := by
    intro rest
    unfold execReqActionsAux
    rw [stepRequestAction_block pr ev a m' body' ha]
  constructor
  · rw [hrest (a :: post), hrest [a], hblk post, hblk []]
  · rw [hrest (a :: post), hblk post]

theorem ruleNoBlock_of_requestRulesNoBlock (r : MatchedRule) (t : List MatchedRule)
    (h : requestRulesNoBlock (r :: t) = true) :
    (r.stage = Stage.request → hasBlockAction r.actions = false) ∧
      requestRulesNoBlock t = true := by
  unfold requestRulesNoBlock at h
  simp only [List.all_cons, Bool.and_eq_true, Bool.or_eq_true, decide_eq_true_eq,
    Bool.not_eq_true'] at h
  refine ⟨fun hs => ?_, by unfold requestRulesNoBlock; exact h.2⟩
  rcases h.1 with h1 | h1
  · exact absurd hs h1
  · exact h1

/-- The rule loop on a block-free list: it never stops early and computes
exactly the `Merge` fold. -/
theorem execRequestRules_no_block (pr : Prims) (ev : PausedEvent) :
    ∀ (rs : List MatchedRule), requestRulesNoBlock rs = true →
      ∀ acc, execRequestRules pr ev rs acc =
        (rs.foldl
          (fun acc r =>
            if r.stage = Stage.request then acc.Merge (ExecuteRequestActions pr ev r.actions).1
            else acc) acc, none) := by
  intro rs
  induction rs with
  | nil => intro _ acc; rfl
  | cons r t ih =>
    intro h acc
    obtain ⟨hr, ht⟩ := ruleNoBlock_of_requestRulesNoBlock r t h
    by_cases hs : r.stage = Stage.request
    · have hnb : hasBlockAction r.actions = false := hr hs
      have h2 : (ExecuteRequestActions pr ev r.actions).2 = none :=
        execReqActionsAux_no_block pr ev r.actions hnb {} (GetRequestBody ev)
      rcases hx : ExecuteRequestActions pr ev r.actions with ⟨m1, b1⟩
      rw [hx] at h2
      cases h2
      simp only [execRequestRules, if_neg (not_not_intro hs), hx, ih ht (acc.Merge m1),
        List.foldl_cons, if_pos hs]
    · simp only [execRequestRules, if_pos hs, ih ht acc, List.foldl_cons, if_neg hs]

/-- The rule loop across a block-free prefix. -/
theorem execRequestRules_append (pr : Prims) (ev : PausedEvent) :
    ∀ (rs1 : List MatchedRule), requestRulesNoBlock rs1 = true →
      ∀ rest acc, execRequestRules pr ev (rs1 ++ rest) acc =
        execRequestRules pr ev rest
          (rs1.foldl
            (fun acc r =>
              if r.stage = Stage.request then acc.Merge (ExecuteRequestActions pr ev r.actions).1
              else acc) acc) := by
  intro rs1
  induction rs1 with
  | nil => intro _ rest acc; rfl
  | cons r t ih =>
    intro h rest acc
    obtain ⟨hr, ht⟩ := ruleNoBlock_of_requestRulesNoBlock r t h
    by_cases hs : r.stage = Stage.request
    · have hnb : hasBlockAction r.actions = false := hr hs
      have h2 : (ExecuteRequestActions pr ev r.actions).2 = none :=
        execReqActionsAux_no_block pr ev r.actions hnb {} (GetRequestBody ev)
      rcases hx : ExecuteRequestActions pr ev r.actions with ⟨m1, b1⟩
      rw [hx] at h2
      cases h2
      show execRequestRules pr ev (r :: (t ++ rest)) acc = _
      simp only [execRequestRules, if_neg (not_not_intro hs), hx,
        ih ht rest (acc.Merge m1), List.foldl_cons, if_pos hs]
    · show execRequestRules pr ev (r :: (t ++ rest)) acc = _
      simp only [execRequestRules, if_pos hs, ih ht rest acc, List.foldl_cons, if_neg hs]

end Cdpnetool.Executor

namespace Cdpnetool.Executor

open Cdpnetool

/-! ## Field equations of `Merge` -/

theorem merge_url (x y : RequestMutation) : (x.Merge y).url = opOr y.url x.url := by
  cases hy : y.url <;> simp [RequestMutation.Merge, hy, opOr]

theorem merge_method (x y : RequestMutation) : (x.Merge y).method = opOr y.method x.method := by
  cases hy : y.method <;> simp [RequestMutation.Merge, hy, opOr]

theorem merge_body (x y : RequestMutation) : (x.Merge y).body = opOr y.body x.body := by
  cases hy : y.body <;> simp [RequestMutation.Merge, hy, opOr]

theorem merge_headers (x y : RequestMutation) :
    (x.Merge y).headers = mergeMapGo x.headers y.headers := rfl

theorem merge_query (x y : RequestMutation) :
    (x.Merge y).query = mergeMapGo x.query y.query := rfl

theorem merge_cookies (x y : RequestMutation) :
    (x.Merge y).cookies = mergeMapGo x.cookies y.cookies := rfl

theorem merge_removeHeaders (x y : RequestMutation) :
    (x.Merge y).removeHeaders = x.removeHeaders ++ y.removeHeaders := rfl

theorem merge_removeQuery (x y : RequestMutation) :
    (x.Merge y).removeQuery = x.removeQuery ++ y.removeQuery := rfl

theorem merge_removeCookies (x y : RequestMutation) :
    (x.Merge y).removeCookies = x.removeCookies ++ y.removeCookies := rfl

theorem merge_status (x y : ResponseMutation) :
    (x.Merge y).statusCode = opOr y.statusCode x.statusCode := by
  cases hy : y.statusCode <;> simp [ResponseMutation.Merge, hy, opOr]

theorem merge_body_res (x y : ResponseMutation) : (x.Merge y).body = opOr y.body x.body := by
  cases hy : y.body <;> simp [ResponseMutation.Merge, hy, opOr]

theorem merge_headers_res (x y : ResponseMutation) :
    (x.Merge y).headers = mergeMapGo x.headers y.headers := rfl

theorem merge_removeHeaders_res (x y : ResponseMutation) :
    (x.Merge y).removeHeaders = x.removeHeaders ++ y.removeHeaders := rfl

end Cdpnetool.Executor

namespace Cdpnetool.Claims

open Cdpnetool Cdpnetool.Cdp Cdpnetool.Executor

/-! ## The claims -/

/-- C1: the claim says the approval channel registered by `applyPause` is
unregistered on every exit path of the flow, including the path where the
pending queue is full.  Evaluating the embedded `applyPause` at a full
pending queue (capacity 0) shows otherwise: the flow exits through the
overflow branch (`sendPendingItem` returns false, the declared default
action `continue` runs) with the id `"r1"` still registered — the
overflow path returns before `unregisterApproval`. -/
theorem c1_pause_overflow_keeps_id_registered :
    Cdp.applyPause [] (some ⟨0, []⟩) { id := "r1" }
        { defaultAction := { type := .continueMutated } } "request" none =
      (["r1"], some ⟨0, []⟩, .continueReq "request") := by
  decide

/-- C2: the claim says every emission onto the event channel is
non-blocking, for any state of the channel's consumer.  Every emission in
`handle` is a plain `m.events <- …` send; with a full channel and no
ready receiver the very first emission (`intercepted`) blocks the handler
goroutine, so the embedded `handle` is stuck (`none`).  A non-blocking
send (`chanTrySend`, the discipline the claim describes) would instead
drop the event and let the handler proceed. -/
theorem c2_handle_blocks_on_full_event_channel :
    Cdp.handle 3000 ⟨0, []⟩ "request" none 0 0 = none ∧
      chanTrySend (⟨0, []⟩ : Chan Cdp.Event) { type := "intercepted" } = (⟨0, []⟩, false) := by
  constructor <;> decide

/-- C3 counterexample: the claim says a draw greater than or equal to the
`dropRate` threshold makes the handler continue unmodified and emit a
`degraded` event.  At `dropRate = 1/2` and draw `3/4 ≥ 1/2` the embedded
handler instead proceeds normally: the outcome is the plain fall-through
continue and the only emitted event is `intercepted` — no `degraded`
event.  The source degrades when `rand.Float64() < a.DropRate`, the
opposite comparison. -/
theorem c3_draw_at_or_above_threshold_is_not_degraded :
    Cdp.handle 3000 ⟨8, []⟩ "request"
        (some { action := some { dropRate := 1/2 } }) (3/4) 0 =
      some (.continueReq "request", ⟨8, [{ type := "intercepted" }]⟩) := by
  norm_num [Cdp.handle, Cdp.handleCore, chanSend, Cdp.effTimeout]

/-- C3 as amended: with a declared `dropRate > 0`, a draw strictly below
the rate makes the handler continue unmodified and emit a `degraded`
event, while a draw at or above the rate proceeds exactly as if no
`dropRate` had been declared. -/
theorem c3_drop_below_rate_degrades_otherwise_normal (pt : Int) (ch : Chan Cdp.Event)
    (stage : String) (rid : Option String) (a : Cdp.ActionCfg) (draw elapsed : ℚ)
    (hrate : 0 < a.dropRate) :
    (draw < a.dropRate →
      Cdp.handle pt ch stage (some { action := some a, ruleID := rid }) draw elapsed =
        (chanSend ch { type := "intercepted" }).bind fun ch1 =>
          (chanSend ch1 { type := "degraded" }).bind fun ch2 =>
            some (Cdp.HandleOutcome.degradedContinue stage, ch2)) ∧
    (a.dropRate ≤ draw →
      Cdp.handle pt ch stage (some { action := some a, ruleID := rid }) draw elapsed =
        Cdp.handle pt ch stage
          (some { action := some { a with dropRate := 0 }, ruleID := rid }) draw elapsed) := by
  constructor
  · intro hdraw
    unfold Cdp.handle
    cases h1 : chanSend ch { type := "intercepted" } with
    | none => rfl
    | some ch1 =>
      show Cdp.handleCore pt ch1 stage (some { action := some a, ruleID := rid }) draw elapsed =
        (chanSend ch1 { type := "degraded" }).bind fun ch2 =>
          some (Cdp.HandleOutcome.degradedContinue stage, ch2)
      simp only [Cdp.handleCore]
      rw [if_pos ⟨hrate, hdraw⟩]
      rfl
  · intro hge
    have hneg : ¬(a.dropRate > 0 ∧ draw < a.dropRate) := fun hc => absurd hc.2 (not_lt.mpr hge)
    unfold Cdp.handle
    cases h1 : chanSend ch { type := "intercepted" } with
    | none => rfl
    | some ch1 =>
      show Cdp.handleCore pt ch1 stage (some { action := some a, ruleID := rid }) draw elapsed =
        Cdp.handleCore pt ch1 stage
          (some { action := some { a with dropRate := 0 }, ruleID := rid }) draw elapsed
      simp only [Cdp.handleCore]
      rw [if_neg hneg, if_neg (show ¬((0 : ℚ) > (0 : ℚ) ∧ draw < (0 : ℚ)) by simp)]

/-- Witness for the amended C3 at `dropRate = 1/2`, draw `1/4`. -/
theorem c3_drop_below_rate_degrades_otherwise_normal_witness :
    (0 : ℚ) < ({ dropRate := 1/2 } : Cdp.ActionCfg).dropRate ∧
    (((1 : ℚ)/4 < ({ dropRate := 1/2 } : Cdp.ActionCfg).dropRate →
      Cdp.handle 3000 ⟨8, []⟩ "request"
          (some { action := some { dropRate := 1/2 }, ruleID := none }) (1/4) 0 =
        (chanSend (⟨8, []⟩ : Chan Cdp.Event) { type := "intercepted" }).bind fun ch1 =>
          (chanSend ch1 { type := "degraded" }).bind fun ch2 =>
            some (Cdp.HandleOutcome.degradedContinue "request", ch2)) ∧
    (({ dropRate := 1/2 } : Cdp.ActionCfg).dropRate ≤ (1 : ℚ)/4 →
      Cdp.handle 3000 ⟨8, []⟩ "request"
          (some { action := some { dropRate := 1/2 }, ruleID := none }) (1/4) 0 =
        Cdp.handle 3000 ⟨8, []⟩ "request"
          (some { action := some { ({ dropRate := 1/2 } : Cdp.ActionCfg) with dropRate := 0 },
                  ruleID := none })
          (1/4) 0)) :=
  ⟨by norm_num,
    c3_drop_below_rate_degrades_otherwise_normal 3000 ⟨8, []⟩ "request" none
      { dropRate := 1/2 } (1/4) 0 (by norm_num)⟩

/-- C8: a deposited rewrite with no url, method, header, query, cookie or
body change (`hasEffectiveMutations` false) makes `applyApprovalResult`
resolve the paused event with the plain `applyContinue` call — the very
outcome a continue with no mutation produces. -/
theorem c8_noop_rewrite_resolves_as_plain_continue (r : Cdp.Rewrite) (p : Cdp.Pause)
    (stage : String) (h : Cdp.hasEffectiveMutations r = false) :
    Cdp.applyApprovalResult (some r) p stage = Cdp.Outcome.continueReq stage := by
  simp [Cdp.applyApprovalResult, h]

/-- Witness for C8 at the empty rewrite. -/
theorem c8_noop_rewrite_resolves_as_plain_continue_witness :
    Cdp.hasEffectiveMutations {} = false ∧
      Cdp.applyApprovalResult (some {}) { defaultAction := { type := .fail } } "request" =
        Cdp.Outcome.continueReq "request" :=
  ⟨by decide,
    c8_noop_rewrite_resolves_as_plain_continue {} { defaultAction := { type := .fail } }
      "request" (by decide)⟩

/-- C9 counterexample: the claim says a rejected pool submission degrades
the event "without blocking the consumer".  `degradeAndContinue` runs
synchronously on the consumer goroutine and emits its `degraded` event
with a plain blocking send; with a full event channel the dispatch is
stuck (`none`) — the consumer blocks. -/
theorem c9_pool_rejection_blocks_consumer_on_full_channel :
    Cdp.dispatchPaused (some false) "r1" ⟨0, []⟩ = none := by
  decide

/-- C9 as amended: with no pool the event is handled in its own unbounded
task; with a pool that accepts, it is queued; on a pool rejection it is
immediately continued unmodified (a `ContinueRequest` carrying only the
request id) with one `degraded` event emitted and no retry — but the
degradation runs synchronously on the consumer, whose event emission is a
blocking send, so it completes only while the event channel has free
capacity. -/
theorem c9_dispatch_policy (id : String) (ch : Chan Cdp.Event)
    (h : ch.buf.length < ch.cap) :
    Cdp.dispatchPaused none id ch = some (.ownTask, ch) ∧
      Cdp.dispatchPaused (some true) id ch = some (.pooled, ch) ∧
      Cdp.dispatchPaused (some false) id ch =
        some (.degraded { requestID := id },
          { ch with buf := ch.buf ++ [{ type := "degraded" }] }) := by
  refine ⟨rfl, rfl, ?_⟩
  simp [Cdp.dispatchPaused, Cdp.degradeAndContinue, chanSend, h]

/-- Witness for the amended C9 on a channel with free capacity. -/
theorem c9_dispatch_policy_witness :
    ((⟨4, []⟩ : Chan Cdp.Event)).buf.length < ((⟨4, []⟩ : Chan Cdp.Event)).cap ∧
      Cdp.dispatchPaused (some false) "r1" ⟨4, []⟩ =
        some (.degraded { requestID := "r1" }, ⟨4, [{ type := "degraded" }]⟩) :=
  ⟨by decide, (c9_dispatch_policy "r1" ⟨4, []⟩ (by decide)).2.2⟩

end Cdpnetool.Claims

namespace Cdpnetool.Claims

open Cdpnetool Cdpnetool.Cdp Cdpnetool.Executor

/-- C4 counterexample: the claim says that after a response-stage body
change the outgoing header set contains none of the four banned headers,
regardless of the matched rules' header actions.  But
`buildFinalResponseHeaders` applies the `set-header` writes after the
banned-header removal: with the body mutation set and a rule that wrote
`content-length`, the outgoing set still carries it. -/
theorem c4_set_header_reintroduces_banned_header :
    mapGet
        (buildFinalResponseHeaders
          { responseHeaders := [("Content-Length", "10")] }
          { body := some "x", headers := [("content-length", "5")] })
        "content-length" = some "5" ∧
      "content-length" ∈ bannedHeaders := by
  constructor <;> decide

/-- C4 as amended: after a response-stage body change, every header
inherited from the original response whose name matches one of
`content-encoding`, `content-length`, `content-md5`, `etag`
case-insensitively is removed from the outgoing set; the outgoing set can
contain such a header only when a matched rule's `set-header` action
explicitly wrote it (the writes are applied after the removal). -/
theorem c4_banned_headers_absent_unless_rule_sets_them
    (ev : PausedEvent) (m : ResponseMutation) (hbody : m.body.isSome = true)
    (hclean : ∀ e ∈ m.headers, ∀ b ∈ bannedHeaders, eqFold e.1 b = false) :
    ∀ k b, b ∈ bannedHeaders → eqFold k b = true →
      mapGet (buildFinalResponseHeaders ev m) k = none := by
  intro k b hb hkb
  unfold buildFinalResponseHeaders
  simp only [hbody, if_true]
  rw [mapGet_mergeMapGo]
  have hsrc : mapGet m.headers.reverse k = none := by
    apply mapGet_eq_none_of_notin
    intro e he hek
    have hf := hclean e (List.mem_reverse.mp he) b hb
    rw [hek, hkb] at hf
    cases hf
  have hdst :
      mapGet
        (bannedHeaders.foldl mapDelFold
          (m.removeHeaders.foldl mapDelFold
            (ev.responseHeaders.foldl (fun acc e => mapSet acc e.1 e.2) []))) k = none :=
    mapGet_foldl_mapDelFold_hit bannedHeaders _ k b hb hkb
  rw [hsrc, hdst]
  rfl

/-- Witness for the amended C4: original response carries
`Content-Encoding` and `ETag`, the rule writes only `X-Trace`. -/
theorem c4_banned_headers_absent_unless_rule_sets_them_witness :
    (({ body := some "y", headers := [("X-Trace", "1")] } : ResponseMutation).body.isSome = true) ∧
      (∀ e ∈ ({ body := some "y", headers := [("X-Trace", "1")] } : ResponseMutation).headers,
        ∀ b ∈ bannedHeaders, eqFold e.1 b = false) ∧
      (∀ k b, b ∈ bannedHeaders → eqFold k b = true →
        mapGet
          (buildFinalResponseHeaders
            { responseHeaders := [("Content-Encoding", "gzip"), ("ETag", "abc")] }
            { body := some "y", headers := [("X-Trace", "1")] }) k = none) :=
  ⟨rfl, by decide,
    c4_banned_headers_absent_unless_rule_sets_them
      { responseHeaders := [("Content-Encoding", "gzip"), ("ETag", "abc")] }
      { body := some "y", headers := [("X-Trace", "1")] } rfl (by decide)⟩

/-- C6: with the original response status present, `BuildResponseArgs`
produces a fulfill carrying status, headers and body when the body
mutation is set; a continue-response supplying status and headers
together (the status defaulting to the original) when only status or
headers changed; and neither status nor headers when nothing changed. -/
theorem c6_response_args_shape (ev : PausedEvent) (m : ResponseMutation) (s : Int)
    (hs : ev.responseStatusCode = some s) :
    (∀ bd, m.body = some bd →
      BuildResponseArgs ev m =
        (none, some
          { requestID := ev.requestID
            responseCode := m.statusCode.getD s
            responseHeaders := some (buildFinalResponseHeaders ev m)
            body := some bd })) ∧
    (m.body = none → HasResponseMutation m = true →
      BuildResponseArgs ev m =
        (some
          { requestID := ev.requestID
            responseCode := some (m.statusCode.getD s)
            responseHeaders := some (buildFinalResponseHeaders ev m) }, none)) ∧
    (m.body = none → HasResponseMutation m = false →
      BuildResponseArgs ev m = (some { requestID := ev.requestID }, none)) := by
  refine ⟨?_, ?_, ?_⟩
  · intro bd hbd
    simp [BuildResponseArgs, hbd, hs]
  · intro hbd hmut
    have hm : (m.statusCode.isSome || m.headers.length > 0 || m.removeHeaders.length > 0) = true := by
      simpa [HasResponseMutation, hbd] using hmut
    simp [BuildResponseArgs, hbd, hs, hm]
  · intro hbd hmut
    have hm : (m.statusCode.isSome || m.headers.length > 0 || m.removeHeaders.length > 0) = false := by
      simpa [HasResponseMutation, hbd] using hmut
    simp [BuildResponseArgs, hbd, hs, hm]

/-- Witness for C6 at a mutation that only sets a header: the
continue-response supplies the defaulted status 200 and the headers
together. -/
theorem c6_response_args_shape_witness :
    (({ responseStatusCode := some 200,
        responseHeaders := [("X-A", "1")] } : PausedEvent).responseStatusCode = some 200) ∧
      (({ headers := [("X-B", "2")] } : ResponseMutation).body = none →
        HasResponseMutation { headers := [("X-B", "2")] } = true →
        BuildResponseArgs
            { responseStatusCode := some 200, responseHeaders := [("X-A", "1")] }
            { headers := [("X-B", "2")] } =
          (some
            { requestID := ""
              responseCode := some ((({ headers := [("X-B", "2")] } : ResponseMutation).statusCode).getD 200)
              responseHeaders := some (buildFinalResponseHeaders
                { responseStatusCode := some 200, responseHeaders := [("X-A", "1")] }
                { headers := [("X-B", "2")] }) }, none)) :=
  ⟨rfl,
    (c6_response_args_shape
      { responseStatusCode := some 200, responseHeaders := [("X-A", "1")] }
      { headers := [("X-B", "2")] } 200 rfl).2.1⟩

end Cdpnetool.Claims

namespace Cdpnetool.Claims

open Cdpnetool Cdpnetool.Cdp Cdpnetool.Executor

/-- C5: request-stage execution over matched rules.  When a terminal
block action is reached, neither the rest of that rule's action sequence
(`post`) nor any subsequent rule (`rules2`) affects the execution, and
the result is a fulfill built from the block's status code, headers and
body, with no continue; when no rule reaches a block action, the result
is a continue built from the request mutation accumulated by merging the
rules in order, with no fulfill. -/
theorem c5_block_short_circuits_and_continue_otherwise
    (pr : Prims) (ev : PausedEvent) (rules1 rules2 : List MatchedRule)
    (pre post : List Action) (a : Action)
    (ha : a.type = ActionType.block)
    (hpre : hasBlockAction pre = false)
    (h1 : requestRulesNoBlock rules1 = true) :
    (ExecuteRequest pr ev (rules1 ++ ⟨.request, pre ++ a :: post⟩ :: rules2) =
        ExecuteRequest pr ev (rules1 ++ [⟨.request, pre ++ [a]⟩])) ∧
      ((ExecuteRequest pr ev (rules1 ++ ⟨.request, pre ++ a :: post⟩ :: rules2)).fulfillArgs =
        some
          { requestID := ev.requestID
            responseCode := (mkBlock a).statusCode
            responseHeaders :=
              if (mkBlock a).headers.length > 0 then some (mkBlock a).headers else none
            body := match (mkBlock a).body with
              | some bd => if bd.length > 0 then some bd else none
              | none => none }) ∧
      ((ExecuteRequest pr ev (rules1 ++ ⟨.request, pre ++ a :: post⟩ :: rules2)).continueArgs =
        none) ∧
      (∀ rs, requestRulesNoBlock rs = true →
        ExecuteRequest pr ev rs =
          { isBlocked := false
            isModified := HasRequestMutation (requestMutationOfRules pr ev rs) none
            isLongConn := IsLongConnectionType ev
            continueArgs := (BuildRequestArgs pr ev (requestMutationOfRules pr ev rs) none).1
            fulfillArgs := none }) := by
  obtain ⟨heq, hblk⟩ :=
    execReqActionsAux_block pr ev pre post a ha hpre {} (GetRequestBody ev)
  rcases hx : ExecuteRequestActions pr ev (pre ++ a :: post) with ⟨mz, bz⟩
  have hbz : bz = some (mkBlock a) := by
    have : (ExecuteRequestActions pr ev (pre ++ a :: post)).2 = some (mkBlock a) := hblk
    rw [hx] at this
    exact this
  subst hbz
  have hx2 : ExecuteRequestActions pr ev (pre ++ [a]) = (mz, some (mkBlock a)) := by
    have : ExecuteRequestActions pr ev (pre ++ a :: post) =
        ExecuteRequestActions pr ev (pre ++ [a]) := heq
    rw [hx] at this
    exact this.symm
  have hmid1 : ∀ rest acc,
      execRequestRules pr ev ((⟨.request, pre ++ a :: post⟩ : MatchedRule) :: rest) acc =
        (acc, some (mkBlock a)) := by
    intro rest acc
    simp only [execRequestRules, hx]
    rfl
  have hmid2 : ∀ rest acc,
      execRequestRules pr ev ((⟨.request, pre ++ [a]⟩ : MatchedRule) :: rest) acc =
        (acc, some (mkBlock a)) := by
    intro rest acc
    simp only [execRequestRules, hx2]
    rfl
  have hrun1 : execRequestRules pr ev (rules1 ++ ⟨.request, pre ++ a :: post⟩ :: rules2) {} =
      (rules1.foldl
        (fun acc r =>
          if r.stage = Stage.request then acc.Merge (ExecuteRequestActions pr ev r.actions).1
          else acc) {}, some (mkBlock a)) := by
    rw [execRequestRules_append pr ev rules1 h1, hmid1]
  have hrun2 : execRequestRules pr ev (rules1 ++ [⟨.request, pre ++ [a]⟩]) {} =
      (rules1.foldl
        (fun acc r =>
          if r.stage = Stage.request then acc.Merge (ExecuteRequestActions pr ev r.actions).1
          else acc) {}, some (mkBlock a)) := by
    rw [execRequestRules_append pr ev rules1 h1, hmid2]
  refine ⟨?_, ?_, ?_, ?_⟩
  · simp only [ExecuteRequest, hrun1, hrun2]
  · simp only [ExecuteRequest, hrun1]
    rfl
  · simp only [ExecuteRequest, hrun1]
    rfl
  · intro rs h
    have hrs := execRequestRules_no_block pr ev rs h {}
    simp only [ExecuteRequest, hrs, requestMutationOfRules]
    rfl

/-- Witness for C5: one plain set-header rule, then a rule whose block
is followed by a discarded set-method, then a discarded rule. -/
theorem c5_block_short_circuits_and_continue_otherwise_witness :
    (({ type := ActionType.block, statusCode := 403, body := "blocked" } : Action).type =
        ActionType.block) ∧
      hasBlockAction
          [({ type := ActionType.setHeader, value := .vstr "abc", name := "X-Trace" } : Action)] =
        false ∧
      requestRulesNoBlock
          [⟨.request,
            [{ type := ActionType.setHeader, value := .vstr "abc", name := "X-Trace" }]⟩] =
        true ∧
      (ExecuteRequest trivialPrims {}
          ([⟨.request,
              [{ type := ActionType.setHeader, value := .vstr "abc", name := "X-Trace" }]⟩] ++
            (⟨.request,
              [{ type := ActionType.setHeader, value := .vstr "abc", name := "X-Trace" },
                { type := ActionType.block, statusCode := 403, body := "blocked" },
                { type := ActionType.setMethod, value := .vstr "POST" }]⟩ : MatchedRule) ::
              [⟨.request, [{ type := ActionType.setUrl, value := .vstr "https://x/" }]⟩])).continueArgs =
        none :=
  ⟨rfl, by decide, by decide,
    (c5_block_short_circuits_and_continue_otherwise trivialPrims {}
      [⟨.request, [{ type := ActionType.setHeader, value := .vstr "abc", name := "X-Trace" }]⟩]
      [⟨.request, [{ type := ActionType.setUrl, value := .vstr "https://x/" }]⟩]
      [{ type := ActionType.setHeader, value := .vstr "abc", name := "X-Trace" }]
      [{ type := ActionType.setMethod, value := .vstr "POST" }]
      { type := ActionType.block, statusCode := 403, body := "blocked" }
      rfl (by decide) (by decide)).2.2.1⟩

end Cdpnetool.Claims

namespace Cdpnetool.Claims

open Cdpnetool Cdpnetool.Cdp Cdpnetool.Executor

/-- C7: `Merge` composition is associative for request and response
mutations (maps compared as maps — Go maps are unordered — and the middle
operand's maps well-formed, as every Go map is), with the later mutation
overriding the earlier one on the singleton set-fields (url, method,
body, status), later set-entries winning per key, and remove-lists
concatenating in order. -/
theorem c7_merge_is_associative
    (a b c : RequestMutation) (a' b' c' : ResponseMutation)
    (hbH : WFMap b.headers) (hbQ : WFMap b.query) (hbC : WFMap b.cookies)
    (hbH' : WFMap b'.headers) :
    RequestMutation.Equiv ((a.Merge b).Merge c) (a.Merge (b.Merge c)) ∧
      ResponseMutation.Equiv ((a'.Merge b').Merge c') (a'.Merge (b'.Merge c')) ∧
      (a.Merge b).url = opOr b.url a.url ∧
      (a.Merge b).method = opOr b.method a.method ∧
      (a.Merge b).body = opOr b.body a.body ∧
      (a'.Merge b').statusCode = opOr b'.statusCode a'.statusCode ∧
      (∀ k, mapGet (a.Merge b).headers k = opOr (mapGet b.headers k) (mapGet a.headers k)) ∧
      (a.Merge b).removeHeaders = a.removeHeaders ++ b.removeHeaders := by
  refine ⟨?_, ?_, merge_url a b, merge_method a b, merge_body a b, merge_status a' b',
    ?_, merge_removeHeaders a b⟩
  · unfold RequestMutation.Equiv
    refine ⟨?_, ?_, ?_, ?_, ?_, ?_, ?_, ?_, ?_⟩
    · simp only [merge_url, opOr_assoc]
    · simp only [merge_method, opOr_assoc]
    · simp only [merge_body, opOr_assoc]
    · simp only [merge_removeHeaders, List.append_assoc]
    · simp only [merge_removeQuery, List.append_assoc]
    · simp only [merge_removeCookies, List.append_assoc]
    · intro k
      simp only [merge_headers]
      exact mergeMapGo_assoc a.headers b.headers c.headers hbH k
    · intro k
      simp only [merge_query]
      exact mergeMapGo_assoc a.query b.query c.query hbQ k
    · intro k
      simp only [merge_cookies]
      exact mergeMapGo_assoc a.cookies b.cookies c.cookies hbC k
  · unfold ResponseMutation.Equiv
    refine ⟨?_, ?_, ?_, ?_⟩
    · simp only [merge_status, opOr_assoc]
    · simp only [merge_body_res, opOr_assoc]
    · simp only [merge_removeHeaders_res, List.append_assoc]
    · intro k
      simp only [merge_headers_res]
      exact mergeMapGo_assoc a'.headers b'.headers c'.headers hbH' k
  · intro k
    rw [merge_headers]
    exact mapGet_mergeMapGo_of_WF b.headers a.headers k hbH

/-- Witness for C7 at three concrete request mutations (overlapping `A`
and `B` header keys) and three concrete response mutations. -/
theorem c7_merge_is_associative_witness :
    WFMap ({ url := some "u2", headers := [("A", "2"), ("B", "3")], query := [("q", "1")] } : RequestMutation).headers ∧
      WFMap ({ url := some "u2", headers := [("A", "2"), ("B", "3")], query := [("q", "1")] } : RequestMutation).query ∧
      WFMap ({ url := some "u2", headers := [("A", "2"), ("B", "3")], query := [("q", "1")] } : RequestMutation).cookies ∧
      WFMap ({ statusCode := some 201, headers := [("E", "1")] } : ResponseMutation).headers ∧
      RequestMutation.Equiv
        ((({ url := some "u1", headers := [("A", "1")], removeHeaders := ["x"] } : RequestMutation).Merge
              { url := some "u2", headers := [("A", "2"), ("B", "3")], query := [("q", "1")] }).Merge
          { headers := [("B", "9")] })
        (({ url := some "u1", headers := [("A", "1")], removeHeaders := ["x"] } : RequestMutation).Merge
          (({ url := some "u2", headers := [("A", "2"), ("B", "3")], query := [("q", "1")] } : RequestMutation).Merge
            { headers := [("B", "9")] })) :=
  ⟨by decide, by decide, by decide, by decide,
    (c7_merge_is_associative
      { url := some "u1", headers := [("A", "1")], removeHeaders := ["x"] }
      { url := some "u2", headers := [("A", "2"), ("B", "3")], query := [("q", "1")] }
      { headers := [("B", "9")] }
      { statusCode := some 200 }
      { statusCode := some 201, headers := [("E", "1")] }
      { body := some "zz" }
      (by decide) (by decide) (by decide) (by decide)).1⟩

/-- C10: a set-body, append-body or block action declaring base64
encoding whose value fails to decode is neither an error nor skipped: the
raw undecoded string becomes the body (respectively the appended text,
or the block body bytes). -/
theorem c10_invalid_base64_uses_raw_value
    (pr : Prims) (ev : PausedEvent) (v : String) (m' : ResponseMutation) (body : String)
    (st : Int) (hs : SMap) (hdec : goBase64Decode v = none) :
    (ExecuteRequestActions pr ev
        [{ type := ActionType.setBody, value := .vstr v, encoding := .base64 }] =
      ({ body := some v }, none)) ∧
    (ExecuteRequestActions pr ev
        [{ type := ActionType.appendBody, value := .vstr v, encoding := .base64 }] =
      ({ body := some (GetRequestBody ev ++ v) }, none)) ∧
    (stepResponseAction pr
        { type := ActionType.setBody, value := .vstr v, encoding := .base64 } m' body =
      ({ m' with body := some v }, v)) ∧
    (stepResponseAction pr
        { type := ActionType.appendBody, value := .vstr v, encoding := .base64 } m' body =
      ({ m' with body := some (body ++ v) }, body ++ v)) ∧
    (mkBlock
        { type := ActionType.block, statusCode := st, headers := hs, body := v,
          bodyEncoding := .base64 } =
      { statusCode := st, headers := hs, body := some v }) := by
  have hv : v ≠ "" := by
    intro h
    rw [h] at hdec
    exact absurd hdec (by decide)
  refine ⟨?_, ?_, ?_, ?_, ?_⟩
  · simp [ExecuteRequestActions, execReqActionsAux, stepRequestAction, hdec]
  · simp [ExecuteRequestActions, execReqActionsAux, stepRequestAction, hdec]
  · simp [stepResponseAction, hdec]
  · simp [stepResponseAction, hdec]
  · simp [mkBlock, hv, hdec]

/-- Witness for C10 at the non-base64 value `"!"`. -/
theorem c10_invalid_base64_uses_raw_value_witness :
    goBase64Decode "!" = none ∧
      (ExecuteRequestActions trivialPrims {}
          [{ type := ActionType.setBody, value := .vstr "!", encoding := .base64 }] =
        ({ body := some "!" }, none)) ∧
      mkBlock
          { type := ActionType.block, statusCode := 403, headers := [], body := "!",
            bodyEncoding := .base64 } =
        { statusCode := 403, headers := [], body := some "!" } :=
  ⟨by decide,
    (c10_invalid_base64_uses_raw_value trivialPrims {} "!" {} "" 403 [] (by decide)).1,
    (c10_invalid_base64_uses_raw_value trivialPrims {} "!" {} "" 403 [] (by decide)).2.2.2.2⟩

end Cdpnetool.Claims
